import Mathlib

/--
Verification development for the Shadow simulator's process-virtualization
layer: the interposition shim (`src/shim/preload_syscalls.c`), the memory
manager, syscall handler and descriptor-ownership interfaces declared in
`src/main/bindings/c/bindings.h` and `src/main/host/syscall/protected.h`.
Only the shim and the two headers are available as source; the Rust/C bodies
behind the header declarations are modelled from the specification where
needed, and each such definition says so in its doc comment.
-/
def shadowDevelopment : Unit := ()

-- ## Interposition shim (embedded from src/shim/preload_syscalls.c)

/-- The six-register syscall trap primitive `syscall(long n, ...)` that every
shim wrapper forwards to.  The shim performs no interpretation, so the trap is
an arbitrary function parameter. -/
abbrev SyscallFn := Nat → Int → Int → Int → Int → Int → Int → Int

namespace Shim

/-- Syscall number `SYS_mmap` (Linux x86-64). -/
def SYS_mmap : Nat := 9

/-- Syscall number `SYS_open` (Linux x86-64). -/
def SYS_open : Nat := 2

/-- Syscall number `SYS_creat` (Linux x86-64). -/
def SYS_creat : Nat := 85

/-- Syscall number `SYS_fcntl` (Linux x86-64). -/
def SYS_fcntl : Nat := 72

/-- Syscall number `SYS_fallocate` (Linux x86-64). -/
def SYS_fallocate : Nat := 285

/-- Expansion of `INTERPOSE(mmap)`: forwards to `syscall(SYS_mmap, a..f)`. -/
def mmap (sc : SyscallFn) (a b c d e f : Int) : Int := sc SYS_mmap a b c d e f

/-- Expansion of `INTERPOSE_REMAP(mmap64, mmap)`. -/
def mmap64 (sc : SyscallFn) (a b c d e f : Int) : Int := sc SYS_mmap a b c d e f

/-- Expansion of `INTERPOSE(open)`; named `open'` because `open` is reserved. -/
def open' (sc : SyscallFn) (a b c d e f : Int) : Int := sc SYS_open a b c d e f

/-- Expansion of `INTERPOSE_REMAP(open64, open)`. -/
def open64 (sc : SyscallFn) (a b c d e f : Int) : Int := sc SYS_open a b c d e f

/-- Expansion of `INTERPOSE(creat)`. -/
def creat (sc : SyscallFn) (a b c d e f : Int) : Int := sc SYS_creat a b c d e f

/-- Expansion of `INTERPOSE_REMAP(creat64, creat)`. -/
def creat64 (sc : SyscallFn) (a b c d e f : Int) : Int := sc SYS_creat a b c d e f

/-- Expansion of `INTERPOSE(fcntl)`. -/
def fcntl (sc : SyscallFn) (a b c d e f : Int) : Int := sc SYS_fcntl a b c d e f

/-- Expansion of `INTERPOSE_REMAP(fcntl64, fcntl)`. -/
def fcntl64 (sc : SyscallFn) (a b c d e f : Int) : Int := sc SYS_fcntl a b c d e f

/-- Expansion of `INTERPOSE_REMAP(__fcntl, fcntl)`. -/
def __fcntl (sc : SyscallFn) (a b c d e f : Int) : Int := sc SYS_fcntl a b c d e f

/-- Expansion of `INTERPOSE(fallocate)`. -/
def fallocate (sc : SyscallFn) (a b c d e f : Int) : Int := sc SYS_fallocate a b c d e f

/-- Expansion of `INTERPOSE_REMAP(fallocate64, fallocate)`. -/
def fallocate64 (sc : SyscallFn) (a b c d e f : Int) : Int := sc SYS_fallocate a b c d e f

end Shim

-- ## Descriptor ownership model (bindings.h: CompatDescriptor / PosixFileArc)

/-- Modelled from the spec: the reference counts of the legacy descriptor
objects and of the posix-file resource objects, keyed by object identity.
The Rust bodies behind `compatdescriptor_*` and `posixfile_*` in
`bindings.h` are not in the sources, so the counts are carried explicitly. -/
structure RefWorld where
  legacyCount : Nat → Nat
  posixCount : Nat → Nat

/-- A compat descriptor is a discriminated union over legacy and posix-file
descriptors, each remembering the identity of the wrapped object. -/
inductive CompatDescriptor where
  | legacy (id : Nat)
  | posixFile (id : Nat)
deriving DecidableEq

/-- Decrement the reference count of legacy object `id` by one. -/
def decLegacy (w : RefWorld) (id : Nat) : RefWorld :=
  { w with legacyCount := fun j => if j = id then w.legacyCount j - 1 else w.legacyCount j }

/-- Decrement the reference count of posix-file object `id` by one. -/
def decPosix (w : RefWorld) (id : Nat) : RefWorld :=
  { w with posixCount := fun j => if j = id then w.posixCount j - 1 else w.posixCount j }

/-- Increment the reference count of posix-file object `id` by one. -/
def incPosix (w : RefWorld) (id : Nat) : RefWorld :=
  { w with posixCount := fun j => if j = id then w.posixCount j + 1 else w.posixCount j }

/-- Modelled from the spec: `compatdescriptor_fromLegacy` (bindings.h) takes
ownership of the existing reference to the legacy descriptor and does not
increment its ref count. -/
def compatdescriptor_fromLegacy (w : RefWorld) (id : Nat) : RefWorld × CompatDescriptor :=
  (w, CompatDescriptor.legacy id)

/-- Modelled from the spec: `compatdescriptor_free` (bindings.h) decrements
the inner object's ref count (whichever kind is present) exactly once. -/
def compatdescriptor_free (w : RefWorld) (d : CompatDescriptor) : RefWorld :=
  match d with
  | CompatDescriptor.legacy id => decLegacy w id
  | CompatDescriptor.posixFile id => decPosix w id

/-- Modelled from the spec: `compatdescriptor_borrowPosixFile` (bindings.h)
returns a non-owning pointer without modifying the ref count, or `none` for a
non-posix-file descriptor. -/
def compatdescriptor_borrowPosixFile (w : RefWorld) (d : CompatDescriptor) :
    RefWorld × Option Nat :=
  match d with
  | CompatDescriptor.posixFile id => (w, some id)
  | _ => (w, none)

/-- Modelled from the spec: `compatdescriptor_newRefPosixFile` (bindings.h)
returns an owning pointer after incrementing the resource's ref count, or
`none` for a non-posix-file descriptor. -/
def compatdescriptor_newRefPosixFile (w : RefWorld) (d : CompatDescriptor) :
    RefWorld × Option Nat :=
  match d with
  | CompatDescriptor.posixFile id => (incPosix w id, some id)
  | _ => (w, none)

/-- Modelled from the spec: `posixfile_drop` (bindings.h) decrements the ref
count of the posix-file object. -/
def posixfile_drop (w : RefWorld) (id : Nat) : RefWorld := decPosix w id

/-- C6: wrapping a legacy descriptor with `compatdescriptor_fromLegacy` leaves
its reference count unchanged (ownership transfer, no increment), and freeing
the resulting compat descriptor decrements the wrapped legacy object's count
exactly once: never zero times and never twice, leaving it at `r - 1`. -/
theorem fromLegacy_free_decrements_once (w : RefWorld) (id : Nat)
    (h : 0 < w.legacyCount id) :
    (compatdescriptor_fromLegacy w id).1.legacyCount id = w.legacyCount id ∧
    (compatdescriptor_free (compatdescriptor_fromLegacy w id).1
        (compatdescriptor_fromLegacy w id).2).legacyCount id = w.legacyCount id - 1 ∧
    (compatdescriptor_free (compatdescriptor_fromLegacy w id).1
        (compatdescriptor_fromLegacy w id).2).legacyCount id + 1 = w.legacyCount id := by
  refine ⟨rfl, by simp [compatdescriptor_fromLegacy, compatdescriptor_free, decLegacy], ?_⟩
  simp only [compatdescriptor_fromLegacy, compatdescriptor_free, decLegacy, if_pos]
  omega

/-- Concrete world with every legacy count 3 and every posix count 2, used to
witness the hypotheses of the reference-count theorems. -/
def refWorld0 : RefWorld := { legacyCount := fun _ => 3, posixCount := fun _ => 2 }

/-- Witness for C6 at a concrete world whose legacy object 0 holds 3
references. -/
theorem fromLegacy_free_decrements_once_witness :
    0 < refWorld0.legacyCount 0 ∧
    ((compatdescriptor_fromLegacy refWorld0 0).1.legacyCount 0 = refWorld0.legacyCount 0 ∧
    (compatdescriptor_free (compatdescriptor_fromLegacy refWorld0 0).1
        (compatdescriptor_fromLegacy refWorld0 0).2).legacyCount 0 = refWorld0.legacyCount 0 - 1 ∧
    (compatdescriptor_free (compatdescriptor_fromLegacy refWorld0 0).1
        (compatdescriptor_fromLegacy refWorld0 0).2).legacyCount 0 + 1 = refWorld0.legacyCount 0) :=
  ⟨by decide, fromLegacy_free_decrements_once refWorld0 0 (by decide)⟩

/-- C7: on a posix-file compat descriptor, `new_ref` followed by the matching
`drop` leaves the resource's reference count net unchanged; `new_ref` alone
leaves it incremented by one; `borrow` changes it by zero. -/
theorem newRef_drop_balance (w : RefWorld) (id : Nat) :
    (posixfile_drop
        (compatdescriptor_newRefPosixFile w (CompatDescriptor.posixFile id)).1
        id).posixCount id = w.posixCount id ∧
    (compatdescriptor_newRefPosixFile w (CompatDescriptor.posixFile id)).1.posixCount id
      = w.posixCount id + 1 ∧
    (compatdescriptor_borrowPosixFile w (CompatDescriptor.posixFile id)).1.posixCount id
      = w.posixCount id := by
  refine ⟨?_, by simp [compatdescriptor_newRefPosixFile, incPosix], rfl⟩
  simp [compatdescriptor_newRefPosixFile, posixfile_drop, incPosix, decPosix]

/-- C10: every 64-suffixed or aliased shim wrapper is extensionally equal to
its base wrapper, because both expand to a call of the trap with the identical
syscall number: `mmap64 = mmap`, `open64 = open`, `creat64 = creat`,
`fcntl64`, `__fcntl` and `fcntl` all invoke `SYS_fcntl`, and
`fallocate64 = fallocate`. -/
theorem shim_remap_aliases (sc : SyscallFn) (a b c d e f : Int) :
    Shim.mmap64 sc a b c d e f = Shim.mmap sc a b c d e f ∧
    Shim.open64 sc a b c d e f = Shim.open' sc a b c d e f ∧
    Shim.creat64 sc a b c d e f = Shim.creat sc a b c d e f ∧
    Shim.fcntl64 sc a b c d e f = Shim.fcntl sc a b c d e f ∧
    Shim.__fcntl sc a b c d e f = Shim.fcntl sc a b c d e f ∧
    Shim.fcntl sc a b c d e f = sc Shim.SYS_fcntl a b c d e f ∧
    Shim.fallocate64 sc a b c d e f = Shim.fallocate sc a b c d e f :=
  ⟨rfl, rfl, rfl, rfl, rfl, rfl, rfl⟩

-- ## Syscall handler I/O paths (protected.h, bindings.h)

/-- Amount of data to transfer between Shadow and the plugin for each
send/recv or read/write syscall (`SYSCALL_IO_BUFSIZE` in protected.h):
16 KiB. -/
def SYSCALL_IO_BUFSIZE : Nat := 1024 * 16

/-- Error code `EBADF` as returned to the plugin (negative errno). -/
def EBADF : Int := -9

/-- Timeout-class error code (negative `ETIMEDOUT`) returned when a blocked
syscall's deadline elapses. -/
def ETIMEDOUT_ERR : Int := -110

/-- Buffered data readable through a descriptor. -/
structure FileBuf where
  data : List Nat
deriving DecidableEq

/-- Modelled from the spec: `rustsyscallhandler_read` (bindings.h).  The body
is not in the sources; per the spec a buffered read moves at most
`SYSCALL_IO_BUFSIZE` bytes per invocation and leaves the remainder for a
subsequent call, returning a successful short count rather than an error. -/
def rustsyscallhandler_read (f : FileBuf) (n : Nat) : Except Int (List Nat × FileBuf) :=
  Except.ok (f.data.take (min n SYSCALL_IO_BUFSIZE),
             FileBuf.mk (f.data.drop (min n SYSCALL_IO_BUFSIZE)))

/-- C5: a buffered read requesting more than the 16 KiB transfer ceiling
succeeds with a short result of at most the ceiling, never an error, and the
bytes it moves together with the bytes it leaves behind are exactly the
original buffer (the remainder is left for a subsequent call). -/
theorem read_caps_at_bufsize (f : FileBuf) (n : Nat) (h : SYSCALL_IO_BUFSIZE < n) :
    rustsyscallhandler_read f n
      = Except.ok (f.data.take SYSCALL_IO_BUFSIZE, FileBuf.mk (f.data.drop SYSCALL_IO_BUFSIZE)) ∧
    (f.data.take SYSCALL_IO_BUFSIZE).length ≤ SYSCALL_IO_BUFSIZE ∧
    f.data.take SYSCALL_IO_BUFSIZE ++ f.data.drop SYSCALL_IO_BUFSIZE = f.data := by
  refine ⟨?_, List.length_take_le _ _, List.take_append_drop _ _⟩
  simp [rustsyscallhandler_read, Nat.min_eq_right h.le]

/-- Concrete three-byte buffer used to witness the short-read theorem. -/
def fileBuf0 : FileBuf := FileBuf.mk [1, 2, 3]

/-- Witness for C5 at a concrete buffer and a 100000-byte request. -/
theorem read_caps_at_bufsize_witness :
    SYSCALL_IO_BUFSIZE < 100000 ∧
    (rustsyscallhandler_read fileBuf0 100000
      = Except.ok (fileBuf0.data.take SYSCALL_IO_BUFSIZE,
          FileBuf.mk (fileBuf0.data.drop SYSCALL_IO_BUFSIZE)) ∧
    (fileBuf0.data.take SYSCALL_IO_BUFSIZE).length ≤ SYSCALL_IO_BUFSIZE ∧
    fileBuf0.data.take SYSCALL_IO_BUFSIZE ++ fileBuf0.data.drop SYSCALL_IO_BUFSIZE
      = fileBuf0.data) :=
  ⟨by norm_num [SYSCALL_IO_BUFSIZE],
   read_caps_at_bufsize fileBuf0 100000 (by norm_num [SYSCALL_IO_BUFSIZE])⟩

/-- A socket-like descriptor as seen by the read path: whether close() was
already called locally, the still-buffered unread bytes, and whether the
end-of-stream has been observed. -/
structure SocketDesc where
  closedLocal : Bool
  buffered : List Nat
  eofObserved : Bool
deriving DecidableEq

/-- Modelled from the spec: `_syscallhandler_readableWhenClosed`
(protected.h).  It is valid to read from a descriptor after close() as long
as the EOF has not yet been read, i.e. the descriptor is readable-when-closed
unless it is drained and the end-of-stream has been observed. -/
def _syscallhandler_readableWhenClosed (d : SocketDesc) : Bool :=
  !(d.buffered.isEmpty && d.eofObserved)

/-- Modelled from the spec: the read path of the syscall handler on a
descriptor, including the read-after-close corner case; a read on a locally
closed descriptor is rejected with `EBADF` exactly when the descriptor is not
readable-when-closed, and otherwise moves at most `SYSCALL_IO_BUFSIZE`
buffered bytes. -/
def syscallhandler_read_closedPath (d : SocketDesc) (n : Nat) :
    Except Int (List Nat × SocketDesc) :=
  if d.closedLocal && !(_syscallhandler_readableWhenClosed d) then Except.error EBADF
  else Except.ok (d.buffered.take (min n SYSCALL_IO_BUFSIZE),
                  { d with buffered := d.buffered.drop (min n SYSCALL_IO_BUFSIZE) })

/-- C4: a read on a locally closed descriptor succeeds and returns the
buffered data whenever unread data remains (and also when the buffer is empty
but no end-of-stream was observed); it fails with the bad-descriptor error
`EBADF` exactly in the drained-and-EOF case. -/
theorem read_after_close_cases (d : SocketDesc) (n : Nat) (hc : d.closedLocal = true) :
    (d.buffered ≠ [] →
      syscallhandler_read_closedPath d n
        = Except.ok (d.buffered.take (min n SYSCALL_IO_BUFSIZE),
            { d with buffered := d.buffered.drop (min n SYSCALL_IO_BUFSIZE) })) ∧
    (d.buffered = [] → d.eofObserved = false →
      syscallhandler_read_closedPath d n = Except.ok ([], d)) ∧
    (d.buffered = [] → d.eofObserved = true →
      syscallhandler_read_closedPath d n = Except.error EBADF) := by
  obtain ⟨c, buf, eof⟩ := d
  simp only at hc
  subst hc
  refine ⟨fun hb => ?_, fun hb he => ?_, fun hb he => ?_⟩
  · simp [syscallhandler_read_closedPath, _syscallhandler_readableWhenClosed,
      List.isEmpty_iff, hb]
  · subst hb; subst he
    simp [syscallhandler_read_closedPath, _syscallhandler_readableWhenClosed]
  · subst hb; subst he
    simp [syscallhandler_read_closedPath, _syscallhandler_readableWhenClosed, List.isEmpty]

/-- Concrete locally-closed descriptor with ten buffered bytes and no
observed end-of-stream. -/
def socketDesc0 : SocketDesc :=
  { closedLocal := true, buffered := [0, 1, 2, 3, 4, 5, 6, 7, 8, 9], eofObserved := false }

/-- Witness for C4 at a concrete closed descriptor holding ten bytes. -/
theorem read_after_close_cases_witness :
    socketDesc0.closedLocal = true ∧
    ((socketDesc0.buffered ≠ [] →
      syscallhandler_read_closedPath socketDesc0 10000
        = Except.ok (socketDesc0.buffered.take (min 10000 SYSCALL_IO_BUFSIZE),
            { socketDesc0 with
                buffered := socketDesc0.buffered.drop (min 10000 SYSCALL_IO_BUFSIZE) })) ∧
    (socketDesc0.buffered = [] → socketDesc0.eofObserved = false →
      syscallhandler_read_closedPath socketDesc0 10000 = Except.ok ([], socketDesc0)) ∧
    (socketDesc0.buffered = [] → socketDesc0.eofObserved = true →
      syscallhandler_read_closedPath socketDesc0 10000 = Except.error EBADF)) :=
  ⟨rfl, read_after_close_cases socketDesc0 10000 rfl⟩

-- ## Syscall handler blocking state machine (protected.h: _SysCallHandler)

/-- The `_SysCallHandler` struct of protected.h, restricted to the fields the
blocking state machine uses: `blockedSyscallNR` (negative means no syscall is
currently blocked), the single-shot `timer` (here: the absolute simulated
expiration time, `none` when disarmed) and the `referenceCount`. -/
structure SysCallHandler where
  blockedSyscallNR : Int
  timer : Option Nat
  referenceCount : Nat
deriving DecidableEq

/-- What a syscall-specific handler decides for one invocation: complete
immediately with a return value, or block, optionally with an absolute
timeout deadline. -/
inductive SyscallDecision where
  | complete (retval : Int)
  | block (timeoutAt : Option Nat)
deriving DecidableEq

/-- What the dispatcher hands back to the trapped thread: a finished syscall
value, or the information that the thread is now suspended. -/
inductive SysCallResult where
  | value (v : Int)
  | blocked
deriving DecidableEq

/-- A freshly created handler: no syscall blocked (sentinel -1), timer
disarmed, one reference. -/
def syscallhandler_new : SysCallHandler :=
  { blockedSyscallNR := -1, timer := none, referenceCount := 1 }

/-- Modelled from the spec: the dispatch step of the syscall handler.  A
completing syscall clears `blockedSyscallNR` to the sentinel and disarms the
timer before returning its value; a blocking one records the syscall number
in `blockedSyscallNR` and arms the timer with the deadline, if any. -/
def syscallhandler_dispatch (h : SysCallHandler) (nr : Nat) (d : SyscallDecision) :
    SysCallHandler × SysCallResult :=
  match d with
  | SyscallDecision.complete v =>
      ({ h with blockedSyscallNR := -1, timer := none }, SysCallResult.value v)
  | SyscallDecision.block t =>
      ({ h with blockedSyscallNR := (nr : Int), timer := t }, SysCallResult.blocked)

/-- Modelled from the spec: resolution of a blocked syscall by timer expiry.
The handler returns the timeout-class error, clears `blockedSyscallNR` to the
sentinel and disarms the timer. -/
def syscallhandler_resolveTimeout (h : SysCallHandler) : SysCallHandler × SysCallResult :=
  ({ h with blockedSyscallNR := -1, timer := none }, SysCallResult.value ETIMEDOUT_ERR)

/-- The wake events the external scheduler can deliver to a handler: an
initial dispatch of a trapped syscall, a readiness wake (which re-dispatches
the blocked syscall, whose handler then decides again), or a timer expiry. -/
inductive HandlerEvent where
  | dispatched (nr : Nat) (d : SyscallDecision)
  | resumedReady (d : SyscallDecision)
  | resumedTimeout
deriving DecidableEq

/-- Modelled from the spec: one step of the per-thread syscall state machine,
driven by an external event. -/
def syscallhandler_step (h : SysCallHandler) (e : HandlerEvent) :
    SysCallHandler × SysCallResult :=
  match e with
  | HandlerEvent.dispatched nr d => syscallhandler_dispatch h nr d
  | HandlerEvent.resumedReady d =>
      if 0 ≤ h.blockedSyscallNR then syscallhandler_dispatch h h.blockedSyscallNR.toNat d
      else (h, SysCallResult.value 0)
  | HandlerEvent.resumedTimeout => syscallhandler_resolveTimeout h

/-- The handler state after a whole trace of events, starting from a fresh
handler. -/
def runHandler (es : List HandlerEvent) : SysCallHandler :=
  es.foldl (fun h e => (syscallhandler_step h e).1) syscallhandler_new

/-- Number of syscalls currently blocked on a handler: one when
`blockedSyscallNR` holds a syscall number, zero when it holds the negative
sentinel. -/
def blockedCount (h : SysCallHandler) : Nat :=
  if 0 ≤ h.blockedSyscallNR then 1 else 0

/-- States reachable by the handler keep the sentinel canonical: when no
syscall is blocked, `blockedSyscallNR` is exactly -1 and the timer is
disarmed. -/
def HandlerInv (h : SysCallHandler) : Prop :=
  h.blockedSyscallNR < 0 → h.blockedSyscallNR = -1 ∧ h.timer = none

theorem handlerInv_step (h : SysCallHandler) (e : HandlerEvent) (hh : HandlerInv h) :
    HandlerInv ((syscallhandler_step h e).1) := by
  cases e with
  | dispatched nr d =>
      cases d with
      | complete v => intro _; exact ⟨rfl, rfl⟩
      | block t =>
          intro hlt
          exact absurd (show (0 : Int) ≤ (nr : Int) from Int.natCast_nonneg nr)
            (not_le.mpr hlt)
  | resumedReady d =>
      by_cases hb : 0 ≤ h.blockedSyscallNR
      · cases d with
        | complete v =>
            intro _
            simp [syscallhandler_step, syscallhandler_dispatch, hb]
        | block t =>
            intro hlt
            simp only [syscallhandler_step, if_pos hb, syscallhandler_dispatch] at hlt
            exact absurd (Int.natCast_nonneg h.blockedSyscallNR.toNat) (not_le.mpr hlt)
      · simpa only [syscallhandler_step, if_neg hb] using hh
  | resumedTimeout =>
      intro _; exact ⟨rfl, rfl⟩

theorem handlerInv_run (es : List HandlerEvent) : HandlerInv (runHandler es) := by
  have base : HandlerInv syscallhandler_new := fun _ => ⟨rfl, rfl⟩
  rw [runHandler]
  generalize syscallhandler_new = h at base ⊢
  induction es generalizing h with
  | nil => exact base
  | cons e es ih => exact ih _ (handlerInv_step h e base)

/-- C2: along every event trace, at most one syscall is blocked on the
handler at any time, and every step that resolves a block — returning a
success value, an error value, or the timeout error to the thread — leaves
`blockedSyscallNR` at the negative sentinel and the timer disarmed. -/
theorem at_most_one_blocked_and_resolution_clears
    (es : List HandlerEvent) (e : HandlerEvent) (v : Int)
    (hv : (syscallhandler_step (runHandler es) e).2 = SysCallResult.value v) :
    blockedCount (runHandler es) ≤ 1 ∧
    (syscallhandler_step (runHandler es) e).1.blockedSyscallNR = -1 ∧
    (syscallhandler_step (runHandler es) e).1.timer = none := by
  refine ⟨by unfold blockedCount; split <;> omega, ?_⟩
  have hinv := handlerInv_run es
  generalize runHandler es = h at hv hinv ⊢
  cases e with
  | dispatched nr d =>
      cases d with
      | complete w => exact ⟨rfl, rfl⟩
      | block t => simp [syscallhandler_step, syscallhandler_dispatch] at hv
  | resumedReady d =>
      by_cases hb : 0 ≤ h.blockedSyscallNR
      · cases d with
        | complete w =>
            simp [syscallhandler_step, syscallhandler_dispatch, hb]
        | block t =>
            simp [syscallhandler_step, syscallhandler_dispatch, hb] at hv
      · simp only [syscallhandler_step, if_neg hb]
        exact hinv (by omega)
  | resumedTimeout => exact ⟨rfl, rfl⟩

/-- Witness for C2: the empty trace followed by a timer expiry resolves with
the timeout error and clears the handler. -/
theorem at_most_one_blocked_and_resolution_clears_witness :
    (syscallhandler_step (runHandler []) HandlerEvent.resumedTimeout).2
        = SysCallResult.value ETIMEDOUT_ERR ∧
    (blockedCount (runHandler []) ≤ 1 ∧
    (syscallhandler_step (runHandler []) HandlerEvent.resumedTimeout).1.blockedSyscallNR = -1 ∧
    (syscallhandler_step (runHandler []) HandlerEvent.resumedTimeout).1.timer = none) :=
  ⟨rfl, at_most_one_blocked_and_resolution_clears [] HandlerEvent.resumedTimeout
      ETIMEDOUT_ERR rfl⟩

/-- Modelled from the spec: the external scheduler driving simulated time one
unit per tick for `fuel` ticks and delivering no readiness events.  At the
tick whose simulated time has reached an armed timer's deadline on a blocked
handler it delivers the timer expiry, which resolves the blocked syscall with
the timeout-class error.  Returns the list of (time, result) resolutions
delivered together with the final handler state. -/
def schedulerRun : Nat → SysCallHandler → Nat → List (Nat × Int) × SysCallHandler
  | 0, h, _ => ([], h)
  | fuel + 1, h, now =>
      match h.timer with
      | some t =>
          if 0 ≤ h.blockedSyscallNR ∧ t ≤ now then
            let p := syscallhandler_resolveTimeout h
            let rest := schedulerRun fuel p.1 (now + 1)
            ((now, ETIMEDOUT_ERR) :: rest.1, rest.2)
          else schedulerRun fuel h (now + 1)
      | none => schedulerRun fuel h (now + 1)

theorem schedulerRun_disarmed (fuel : Nat) (h : SysCallHandler) (now : Nat)
    (ht : h.timer = none) : schedulerRun fuel h now = ([], h) := by
  induction fuel generalizing now with
  | zero => rfl
  | succ fuel ih =>
      obtain ⟨bnr, tmr, rc⟩ := h
      simp only at ht
      subst ht
      exact ih _

theorem schedulerRun_fires_once (fuel : Nat) (h : SysCallHandler) (now t : Nat)
    (ht : h.timer = some t) (hb : 0 ≤ h.blockedSyscallNR)
    (h1 : now ≤ t) (h2 : t < now + fuel) :
    schedulerRun fuel h now
      = ([(t, ETIMEDOUT_ERR)], { h with blockedSyscallNR := -1, timer := none }) := by
  induction fuel generalizing now with
  | zero => omega
  | succ fuel ih =>
      obtain ⟨bnr, tmr, rc⟩ := h
      simp only at ht hb
      subst ht
      by_cases hc : t ≤ now
      · have hnt : now = t := le_antisymm h1 hc
        subst hnt
        simp only [schedulerRun, if_pos (And.intro hb (le_refl now)),
          syscallhandler_resolveTimeout]
        rw [schedulerRun_disarmed fuel _ (now + 1) rfl]
      · have hcond : ¬(0 ≤ bnr ∧ t ≤ now) := fun hand => hc hand.2
        simp only [schedulerRun, if_neg hcond]
        exact ih (now + 1) (by omega) (by omega)

/-- C3: a fresh handler that blocks on syscall `nr` with an absolute timeout
deadline of 5 time units and then receives no readiness event resolves
exactly once, at simulated time 5, with the timeout-class error, after which
`blockedSyscallNR` is back at the negative sentinel and the timer is
disarmed; moreover the completing resumption path also disarms the timer, so
an armed timer can never fire a second, stale time. -/
theorem blocked_timeout_fires_once (nr : Nat) (fuel : Nat) (hf : 5 < fuel) :
    schedulerRun fuel
        (syscallhandler_dispatch syscallhandler_new nr (SyscallDecision.block (some 5))).1 0
      = ([(5, ETIMEDOUT_ERR)],
         { blockedSyscallNR := -1, timer := none, referenceCount := 1 }) ∧
    (∀ (h : SysCallHandler) (v : Int),
      (syscallhandler_dispatch h nr (SyscallDecision.complete v)).1.timer = none ∧
      (syscallhandler_resolveTimeout h).1.timer = none) := by
  constructor
  · rw [schedulerRun_fires_once fuel _ 0 5 rfl (Int.natCast_nonneg nr) (by omega) (by omega)]
    rfl
  · exact fun h v => ⟨rfl, rfl⟩

/-- Witness for C3 at syscall number 7 and ten scheduler ticks. -/
theorem blocked_timeout_fires_once_witness :
    5 < 10 ∧
    (schedulerRun 10
        (syscallhandler_dispatch syscallhandler_new 7 (SyscallDecision.block (some 5))).1 0
      = ([(5, ETIMEDOUT_ERR)],
         { blockedSyscallNR := -1, timer := none, referenceCount := 1 }) ∧
    (∀ (h : SysCallHandler) (v : Int),
      (syscallhandler_dispatch h 7 (SyscallDecision.complete v)).1.timer = none ∧
      (syscallhandler_resolveTimeout h).1.timer = none)) :=
  ⟨by omega, blocked_timeout_fires_once 7 10 (by omega)⟩

-- ## Memory manager (bindings.h: memorymanager_*)

/-- Kernel-semantic error code `EINVAL` (negative errno). -/
def EINVAL : Int := -22

/-- Kernel-semantic error code `ENODEV` (negative errno), the kernel's error
for an unsupported mapping request. -/
def ENODEV : Int := -19

/-- Kernel-semantic error code `ENOMEM` (negative errno). -/
def ENOMEM : Int := -12

/-- The `MAP_ANONYMOUS` mmap flag bit. -/
def MAP_ANONYMOUS : Int := 32

/-- Page granularity used by the heap handling. -/
def PAGE_SIZE : Nat := 4096

/-- Round a byte count up to page granularity. -/
def roundUpPage (x : Nat) : Nat := (x + PAGE_SIZE - 1) / PAGE_SIZE * PAGE_SIZE

/-- A shadow region: the bookkeeping record of one plugin memory mapping's
base address, byte length and protection flags. -/
structure Region where
  base : Nat
  len : Nat
  prot : Int
deriving DecidableEq

/-- Region `r` covers address `x`. -/
def Region.covers (r : Region) (x : Nat) : Prop := r.base ≤ x ∧ x < r.base + r.len

/-- Two regions occupy disjoint address ranges. -/
def Region.disjointWith (r s : Region) : Prop :=
  r.base + r.len ≤ s.base ∨ s.base + s.len ≤ r.base

/-- The set of addresses covered by a list of shadow regions. -/
def addrSet (rs : List Region) : Set Nat :=
  { x | ∃ r, r ∈ rs ∧ r.base ≤ x ∧ x < r.base + r.len }

/-- Well-formedness of a shadow region set: no two regions overlap and every
region is nonempty. -/
def wfRegions (rs : List Region) : Prop :=
  rs.Pairwise Region.disjointWith ∧ ∀ r ∈ rs, 0 < r.len

/-- Modelled from the spec: the per-process `MemoryManager` state behind the
opaque pointer of bindings.h — the shadow region set of the mmap'd ranges,
the heap extent managed by `brk`, and the plugin-visible byte contents of the
backing memory. -/
structure MemoryManager where
  regions : List Region
  heapStart : Nat
  heapEnd : Nat
  mem : Nat → Nat

/-- The freshly created memory manager of `memorymanager_new`: no mmap'd
regions, an empty heap, zeroed backing memory. -/
def mmInit : MemoryManager :=
  { regions := [], heapStart := 0, heapEnd := 0, mem := fun _ => 0 }

/-- Decidable test that the range `[b, b+l)` overlaps no region of `rs`. -/
def rangeFreeB (rs : List Region) (b l : Nat) : Bool :=
  rs.all fun r => decide (b + l ≤ r.base) || decide (r.base + r.len ≤ b)

/-- One past the largest address covered by any region (0 when none). -/
def maxEnd (rs : List Region) : Nat :=
  rs.foldr (fun r m => max (r.base + r.len) m) 0

/-- First candidate base address whose range of `l` bytes is free, falling
back to `maxEnd` (which is always free). -/
def firstFree (rs : List Region) (l : Nat) : List Nat → Nat
  | [] => maxEnd rs
  | c :: cs => if rangeFreeB rs c l then c else firstFree rs l cs

/-- Modelled from the spec: the address-choice strategy of
`memorymanager_handleMmap` when the hint is unusable — find the first
sufficiently large free range, scanning the start of the address space and
the end of each existing region. -/
def findFreeBase (rs : List Region) (l : Nat) : Nat :=
  firstFree rs l (0 :: rs.map fun r => r.base + r.len)

/-- Modelled from the spec: `memorymanager_handleMmap` (bindings.h).  Rejects
a zero-length or non-anonymous (file-backed, unsupported) request with the
kernel's error; otherwise chooses a base address — honoring a non-null hint
when the requested range is free, else the first sufficiently large free
range — records the new region in the shadow set and zeroes its backing
bytes, returning the chosen base. -/
def memorymanager_handleMmap (mm : MemoryManager) (hint len : Nat)
    (prot flags fd _offset : Int) : MemoryManager × Int :=
  if len = 0 then (mm, EINVAL)
  else if Int.land flags MAP_ANONYMOUS = 0 ∨ 0 ≤ fd then (mm, ENODEV)
  else
    let b := if hint ≠ 0 ∧ rangeFreeB mm.regions hint len = true then hint
             else findFreeBase mm.regions len
    ({ mm with
        regions := Region.mk b len prot :: mm.regions,
        mem := fun x => if b ≤ x ∧ x < b + len then 0 else mm.mem x },
     (b : Int))

/-- The at most two remainders of region `r` after the range `[a, a+n)` is
unmapped from it: the part below `a` and the part at or above `a + n`. -/
def removeRange (a n : Nat) (r : Region) : List Region :=
  (if r.base < a then [Region.mk r.base (min r.len (a - r.base)) r.prot] else []) ++
  (if a + n < r.base + r.len then
    [Region.mk (max r.base (a + n)) (r.base + r.len - max r.base (a + n)) r.prot]
   else [])

/-- Remove the range `[a, a+n)` from every region of the shadow set,
splitting regions that straddle it. -/
def munmapRegions (a n : Nat) : List Region → List Region
  | [] => []
  | r :: rs => removeRange a n r ++ munmapRegions a n rs

/-- Modelled from the spec: `memorymanager_handleMunmap` (bindings.h).
Rejects a zero-length request with the kernel's error; otherwise removes the
covered range from the shadow set (possibly splitting an existing region into
two remainders) and returns 0. -/
def memorymanager_handleMunmap (mm : MemoryManager) (a n : Nat) : MemoryManager × Int :=
  if n = 0 then (mm, EINVAL)
  else ({ mm with regions := munmapRegions a n mm.regions }, 0)

/-- Modelled from the spec: `memorymanager_handleBrk` (bindings.h).  Grows or
shrinks the heap region to end at the requested break, rounded to page
granularity; an invalid request (below the heap start) is a no-op that
returns the current break value, mirroring kernel semantics. -/
def memorymanager_handleBrk (mm : MemoryManager) (newBrk : Nat) : MemoryManager × Nat :=
  if newBrk < mm.heapStart then (mm, mm.heapEnd)
  else
    let e := roundUpPage newBrk
    ({ mm with heapEnd := e }, e)

/-- C9: `handle_brk(x)` immediately followed by `handle_brk(x)` is
idempotent — the second call leaves the entire manager state (shadow region
set included) unchanged and returns the same break value as the first. -/
theorem handleBrk_idempotent (mm : MemoryManager) (x : Nat) :
    (memorymanager_handleBrk (memorymanager_handleBrk mm x).1 x).1
        = (memorymanager_handleBrk mm x).1 ∧
    (memorymanager_handleBrk (memorymanager_handleBrk mm x).1 x).2
        = (memorymanager_handleBrk mm x).2 := by
  obtain ⟨rs, hs, he, mem⟩ := mm
  by_cases h : x < hs
  · simp [memorymanager_handleBrk, h]
  · simp [memorymanager_handleBrk, h]

/-- Protection flags of the region based at address `a` (0 when none). -/
def protAt (mm : MemoryManager) (a : Nat) : Int :=
  ((mm.regions.find? fun r => r.base == a).map Region.prot).getD 0

/-- Modelled from the spec: `memorymanager_handleMremap` (bindings.h).
Rejects empty extents; shrinks in place; grows in place when the extension
range is free (fresh bytes zeroed); otherwise, when the may-move flag allows,
moves via allocate-copy-release to the first free range, copying the bytes of
the overlap of old and new extents; otherwise fails with the kernel's error.
Returns the (possibly moved) base address on success. -/
def memorymanager_handleMremap (mm : MemoryManager) (oldAddr oldSize newSize : Nat)
    (mayMove : Bool) : MemoryManager × Int :=
  if oldSize = 0 ∨ newSize = 0 then (mm, EINVAL)
  else if newSize ≤ oldSize then
    ({ mm with
        regions := Region.mk oldAddr newSize (protAt mm oldAddr) ::
                   munmapRegions oldAddr oldSize mm.regions },
     (oldAddr : Int))
  else if rangeFreeB mm.regions (oldAddr + oldSize) (newSize - oldSize) then
    ({ mm with
        regions := Region.mk oldAddr newSize (protAt mm oldAddr) ::
                   munmapRegions oldAddr oldSize mm.regions,
        mem := fun x =>
          if oldAddr + oldSize ≤ x ∧ x < oldAddr + newSize then 0 else mm.mem x },
     (oldAddr : Int))
  else if mayMove then
    let b := findFreeBase mm.regions newSize
    ({ mm with
        regions := Region.mk b newSize (protAt mm oldAddr) ::
                   munmapRegions oldAddr oldSize mm.regions,
        mem := fun x =>
          if b ≤ x ∧ x < b + newSize then
            (if x - b < oldSize then mm.mem (oldAddr + (x - b)) else 0)
          else mm.mem x },
     (b : Int))
  else (mm, ENOMEM)

/-- C8: whenever `handle_mremap` succeeds — in place or by an
allocate-copy-release move — every byte at a corresponding offset in the
overlap of the old and new extents is preserved: the byte at offset `i` of
the resulting region equals the byte at offset `i` of the original region,
for all `i` below both sizes. -/
theorem mremap_preserves_overlap (mm : MemoryManager) (oldAddr oldSize newSize : Nat)
    (mayMove : Bool) (i : Nat)
    (hok : 0 ≤ (memorymanager_handleMremap mm oldAddr oldSize newSize mayMove).2)
    (hi : i < min oldSize newSize) :
    (memorymanager_handleMremap mm oldAddr oldSize newSize mayMove).1.mem
        ((memorymanager_handleMremap mm oldAddr oldSize newSize mayMove).2.toNat + i)
      = mm.mem (oldAddr + i) := by
  unfold memorymanager_handleMremap at hok ⊢
  split_ifs at hok ⊢ with h1 h2 h3 h4
  · exact absurd hok (by norm_num [EINVAL])
  · simp
  · have hio : i < oldSize := lt_of_lt_of_le hi (min_le_left _ _)
    simp only [Int.toNat_natCast]
    rw [if_neg (by omega)]
  · have hio : i < oldSize := lt_of_lt_of_le hi (min_le_left _ _)
    have hin : i < newSize := lt_of_lt_of_le hi (min_le_right _ _)
    simp only [Int.toNat_natCast]
    rw [if_pos (by omega), if_pos (by omega)]
    congr 1
    omega
  · exact absurd hok (by norm_num [ENOMEM])

/-- Concrete manager with two adjacent eight-byte regions and
address-dependent contents, used to witness the mremap theorem on the
allocate-copy-release move path. -/
def mmMove0 : MemoryManager :=
  { regions := [Region.mk 0 8 0, Region.mk 8 8 0],
    heapStart := 0, heapEnd := 0, mem := fun x => x + 1 }

/-- Witness for C8: growing the region at 0 from 8 to 16 bytes cannot happen
in place (the next region is adjacent), so the mapping moves to base 16 and
the byte at offset 3 is preserved. -/
theorem mremap_preserves_overlap_witness :
    0 ≤ (memorymanager_handleMremap mmMove0 0 8 16 true).2 ∧
    3 < min 8 16 ∧
    (memorymanager_handleMremap mmMove0 0 8 16 true).1.mem
        ((memorymanager_handleMremap mmMove0 0 8 16 true).2.toNat + 3)
      = mmMove0.mem (0 + 3) :=
  ⟨by decide, by decide, mremap_preserves_overlap mmMove0 0 8 16 true 3 (by decide) (by decide)⟩

-- ## C1: the shadow region set invariant under mmap/munmap sequences

/-- The address interval `[a, a + n)` as a set. -/
def interval (a n : Nat) : Set Nat := { x | a ≤ x ∧ x < a + n }

theorem rangeFreeB_iff (rs : List Region) (b l : Nat) :
    rangeFreeB rs b l = true ↔ ∀ r ∈ rs, b + l ≤ r.base ∨ r.base + r.len ≤ b := by
  simp [rangeFreeB, List.all_eq_true]

theorem le_maxEnd (rs : List Region) (r : Region) (hr : r ∈ rs) :
    r.base + r.len ≤ maxEnd rs := by
  induction rs with
  | nil => cases hr
  | cons s ss ih =>
      rcases List.mem_cons.mp hr with h | h
      · subst h; exact le_max_left _ _
      · exact le_trans (ih h) (le_max_right _ _)

theorem rangeFreeB_maxEnd (rs : List Region) (l : Nat) :
    rangeFreeB rs (maxEnd rs) l = true := by
  rw [rangeFreeB_iff]
  exact fun r hr => Or.inr (le_maxEnd rs r hr)

theorem firstFree_free (rs : List Region) (l : Nat) (cs : List Nat) :
    rangeFreeB rs (firstFree rs l cs) l = true := by
  induction cs with
  | nil => exact rangeFreeB_maxEnd rs l
  | cons c cs ih =>
      by_cases h : rangeFreeB rs c l = true
      · simp [firstFree, h]
      · simpa [firstFree, h] using ih

theorem findFreeBase_free (rs : List Region) (l : Nat) :
    rangeFreeB rs (findFreeBase rs l) l = true :=
  firstFree_free rs l _

theorem removeRange_covers (a n : Nat) (r : Region) (x : Nat) :
    (∃ p, p ∈ removeRange a n r ∧ p.base ≤ x ∧ x < p.base + p.len) ↔
      ((r.base ≤ x ∧ x < r.base + r.len) ∧ ¬(a ≤ x ∧ x < a + n)) := by
  unfold removeRange
  by_cases h1 : r.base < a <;> by_cases h2 : a + n < r.base + r.len <;>
    (simp [h1, h2]; omega)

theorem removeRange_subset (a n : Nat) (r p : Region)
    (hr : 0 < r.len) (hp : p ∈ removeRange a n r) :
    r.base ≤ p.base ∧ p.base + p.len ≤ r.base + r.len ∧ 0 < p.len := by
  unfold removeRange at hp
  by_cases h1 : r.base < a <;> by_cases h2 : a + n < r.base + r.len <;>
    simp [h1, h2] at hp
  · rcases hp with rfl | rfl <;> refine ⟨?_, ?_, ?_⟩ <;> simp <;> omega
  · subst hp; refine ⟨?_, ?_, ?_⟩ <;> simp <;> omega
  · subst hp; refine ⟨?_, ?_, ?_⟩ <;> simp <;> omega

theorem removeRange_pairwise (a n : Nat) (r : Region) :
    (removeRange a n r).Pairwise Region.disjointWith := by
  unfold removeRange
  by_cases h1 : r.base < a <;> by_cases h2 : a + n < r.base + r.len <;>
    (simp [h1, h2, Region.disjointWith]; try omega)

theorem mem_munmapRegions (a n : Nat) (rs : List Region) (p : Region) :
    p ∈ munmapRegions a n rs ↔ ∃ r, r ∈ rs ∧ p ∈ removeRange a n r := by
  induction rs with
  | nil => simp [munmapRegions]
  | cons r rs ih =>
      simp only [munmapRegions, List.mem_append, ih, List.mem_cons]
      constructor
      · rintro (hp | ⟨s, hs, hps⟩)
        · exact ⟨r, Or.inl rfl, hp⟩
        · exact ⟨s, Or.inr hs, hps⟩
      · rintro ⟨s, hs | hs, hps⟩
        · subst hs; exact Or.inl hps
        · exact Or.inr ⟨s, hs, hps⟩

theorem munmapRegions_pairwise (a n : Nat) :
    ∀ rs : List Region, rs.Pairwise Region.disjointWith → (∀ r ∈ rs, 0 < r.len) →
      (munmapRegions a n rs).Pairwise Region.disjointWith := by
  intro rs
  induction rs with
  | nil => intro _ _; exact List.Pairwise.nil
  | cons r rs ih =>
      intro hpw hpos
      rcases List.pairwise_cons.mp hpw with ⟨hd, htl⟩
      have hrpos : 0 < r.len := hpos r (List.mem_cons_self r rs)
      have htlpos : ∀ s ∈ rs, 0 < s.len := fun s hs => hpos s (List.mem_cons_of_mem _ hs)
      rw [munmapRegions]
      refine List.pairwise_append.mpr ⟨removeRange_pairwise a n r, ih htl htlpos, ?_⟩
      intro p hp q hq
      obtain ⟨s, hs, hqs⟩ := (mem_munmapRegions a n rs q).mp hq
      have hds := hd s hs
      have h1 := removeRange_subset a n r p hrpos hp
      have h2 := removeRange_subset a n s q (htlpos s hs) hqs
      unfold Region.disjointWith at hds ⊢
      omega

theorem munmapRegions_pos (a n : Nat) (rs : List Region)
    (hpos : ∀ r ∈ rs, 0 < r.len) :
    ∀ p ∈ munmapRegions a n rs, 0 < p.len := by
  intro p hp
  obtain ⟨r, hr, hpr⟩ := (mem_munmapRegions a n rs p).mp hp
  exact (removeRange_subset a n r p (hpos r hr) hpr).2.2

theorem addrSet_munmapRegions (a n : Nat) (rs : List Region) :
    addrSet (munmapRegions a n rs) = addrSet rs \ interval a n := by
  ext x
  simp only [addrSet, Set.mem_setOf_eq, Set.mem_diff, interval]
  constructor
  · rintro ⟨p, hp, hcov⟩
    obtain ⟨r, hr, hpr⟩ := (mem_munmapRegions a n rs p).mp hp
    have h := (removeRange_covers a n r x).mp ⟨p, hpr, hcov⟩
    exact ⟨⟨r, hr, h.1⟩, h.2⟩
  · rintro ⟨⟨r, hr, hcov⟩, hnot⟩
    obtain ⟨p, hp, hcov2⟩ := (removeRange_covers a n r x).mpr ⟨hcov, hnot⟩
    exact ⟨p, (mem_munmapRegions a n rs p).mpr ⟨r, hr, hp⟩, hcov2⟩

theorem addrSet_cons (r : Region) (rs : List Region) :
    addrSet (r :: rs) = interval r.base r.len ∪ addrSet rs := by
  ext x
  simp only [addrSet, Set.mem_setOf_eq, Set.mem_union, interval, List.mem_cons]
  constructor
  · rintro ⟨s, hs | hs, hcov⟩
    · subst hs; exact Or.inl hcov
    · exact Or.inr ⟨s, hs, hcov⟩
  · rintro (hx | ⟨s, hs, hcov⟩)
    · exact ⟨r, Or.inl rfl, hx⟩
    · exact ⟨s, Or.inr hs, hcov⟩

theorem handleMmap_cases (mm : MemoryManager) (hint len : Nat) (prot flags fd off : Int) :
    (memorymanager_handleMmap mm hint len prot flags fd off = (mm, EINVAL)) ∨
    (memorymanager_handleMmap mm hint len prot flags fd off = (mm, ENODEV)) ∨
    (∃ b, rangeFreeB mm.regions b len = true ∧ 0 < len ∧
      memorymanager_handleMmap mm hint len prot flags fd off
        = ({ mm with
              regions := Region.mk b len prot :: mm.regions,
              mem := fun x => if b ≤ x ∧ x < b + len then 0 else mm.mem x },
           (b : Int))) := by
  unfold memorymanager_handleMmap
  by_cases h0 : len = 0
  · exact Or.inl (by rw [if_pos h0])
  · rw [if_neg h0]
    by_cases h1 : Int.land flags MAP_ANONYMOUS = 0 ∨ 0 ≤ fd
    · exact Or.inr (Or.inl (by rw [if_pos h1]))
    · rw [if_neg h1]
      refine Or.inr (Or.inr ?_)
      by_cases h2 : hint ≠ 0 ∧ rangeFreeB mm.regions hint len = true
      · exact ⟨hint, h2.2, Nat.pos_of_ne_zero h0, by rw [if_pos h2]⟩
      · exact ⟨findFreeBase mm.regions len, findFreeBase_free mm.regions len,
          Nat.pos_of_ne_zero h0, by rw [if_neg h2]⟩

/-- The emulated mmap/munmap operations whose sequences claim C1 quantifies
over. -/
inductive MmOp where
  | mmap (hint len : Nat) (prot flags fd off : Int)
  | munmap (a n : Nat)

/-- Modelled from the spec: one emulated call together with the monitored
process's belief about its still-valid mappings.  The first component steps
the memory manager; the second updates the belief exactly as the returned
result tells the process — a successful mmap call makes it believe the range
at the returned base is mapped, a successful munmap call makes it believe the
unmapped range is gone, and a rejected call changes nothing. -/
def opStepPair (p : MemoryManager × Set Nat) (op : MmOp) : MemoryManager × Set Nat :=
  match op with
  | MmOp.mmap hint len prot flags fd off =>
      ((memorymanager_handleMmap p.1 hint len prot flags fd off).1,
       if 0 ≤ (memorymanager_handleMmap p.1 hint len prot flags fd off).2 then
         p.2 ∪ interval (memorymanager_handleMmap p.1 hint len prot flags fd off).2.toNat len
       else p.2)
  | MmOp.munmap a n =>
      ((memorymanager_handleMunmap p.1 a n).1,
       if 0 ≤ (memorymanager_handleMunmap p.1 a n).2 then p.2 \ interval a n else p.2)

/-- The shadow set is well formed and covers exactly the believed-valid
addresses. -/
def MmInv (p : MemoryManager × Set Nat) : Prop :=
  wfRegions p.1.regions ∧ addrSet p.1.regions = p.2

theorem opStepPair_inv (p : MemoryManager × Set Nat) (op : MmOp) (h : MmInv p) :
    MmInv (opStepPair p op) := by
  obtain ⟨⟨hpw, hpos⟩, hset⟩ := h
  cases op with
  | munmap a n =>
      by_cases hn : n = 0
      · simp only [opStepPair, memorymanager_handleMunmap, if_pos hn]
        rw [if_neg (by norm_num [EINVAL])]
        exact ⟨⟨hpw, hpos⟩, hset⟩
      · simp only [opStepPair, memorymanager_handleMunmap, if_neg hn]
        rw [if_pos (le_refl (0 : Int))]
        exact ⟨⟨munmapRegions_pairwise a n p.1.regions hpw hpos,
                munmapRegions_pos a n p.1.regions hpos⟩,
               by rw [addrSet_munmapRegions, hset]⟩
  | mmap hint len prot flags fd off =>
      rcases handleMmap_cases p.1 hint len prot flags fd off with heq | heq | ⟨b, hfree, hlen, heq⟩
      · simp only [opStepPair, heq]
        rw [if_neg (by norm_num [EINVAL])]
        exact ⟨⟨hpw, hpos⟩, hset⟩
      · simp only [opStepPair, heq]
        rw [if_neg (by norm_num [ENODEV])]
        exact ⟨⟨hpw, hpos⟩, hset⟩
      · simp only [opStepPair, heq]
        rw [if_pos (Int.natCast_nonneg b)]
        refine ⟨⟨List.pairwise_cons.mpr ⟨?_, hpw⟩, ?_⟩, ?_⟩
        · intro s hs
          exact (rangeFreeB_iff p.1.regions b len).mp hfree s hs
        · intro r hr
          rcases List.mem_cons.mp hr with hr | hr
          · subst hr; exact hlen
          · exact hpos r hr
        · rw [addrSet_cons, hset, Int.toNat_natCast, Set.union_comm]

/-- The state of the memory manager and of the process's belief after a
sequence of emulated mmap/munmap calls starting from a fresh manager. -/
def runOps (ops : List MmOp) : MemoryManager × Set Nat :=
  ops.foldl opStepPair (mmInit, ∅)

/-- C1: after every sequence of `handle_mmap` / `handle_munmap` calls — on
every return path, rejections included — the shadow region set contains no
two overlapping regions and its union is exactly the set of addresses the
monitored process still believes mapped (mapped by a successful call and not
yet unmapped). -/
theorem shadow_set_no_overlap_covers_valid (ops : List MmOp) :
    (runOps ops).1.regions.Pairwise Region.disjointWith ∧
    addrSet (runOps ops).1.regions = (runOps ops).2 := by
  have base : MmInv (mmInit, (∅ : Set Nat)) := by
    refine ⟨⟨List.Pairwise.nil, by simp [mmInit]⟩, ?_⟩
    ext x
    simp [addrSet, mmInit]
  have main : MmInv (runOps ops) := by
    rw [runOps]
    generalize (mmInit, (∅ : Set Nat)) = p at base ⊢
    induction ops generalizing p with
    | nil => exact base
    | cons op ops ih => exact ih _ (opStepPair_inv p op base)
  exact ⟨main.1.1, main.2⟩
